import Mathlib

/-
Verification of the change-resolution and attribution engine of
barredterra/pretty_release_notes.

The development shallowly embeds, at the level of character lists and
plain data:
 * the regular expressions BACKPORT_NO and REVERT_PATTERNS of
   pretty_release_notes/models/pull_request.py,
 * the conventional-commit prefix grammar of models/_utils.py,
 * PullRequest with its resolved backport chain, get_author,
   set_reviewers and get_summary_key,
 * the CSV and SQLite summary caches of pretty_release_notes/database.py,
 * ReleaseNotes.serialize with its revert-pair suppression and optional
   grouping (pretty_release_notes/models/release_notes.py).
-/

namespace PRN

/-! ### Character classes of the Python regexes (ASCII fragment) -/

/-- Regex class `\d`. -/
def isDigitChar (c : Char) : Bool := c.isDigit

/-- Regex class `\w` (ASCII): letters, digits and underscore. -/
def isWordChar (c : Char) : Bool := c.isAlpha || c.isDigit || c = '_'

/-- Character class `[\w-]` used by the revert patterns. -/
def isWordDash (c : Char) : Bool := isWordChar c || c = '-'

/-- Regex class `\s` (ASCII): space, tab, LF, CR, VT, FF. -/
def isSpaceChar (c : Char) : Bool :=
  c = ' ' || c = '\t' || c = '\n' || c = '\r' || c = '\x0b' || c = '\x0c'

/-! ### Scanning primitives

A matcher takes the character list starting at one position of the
subject and returns the captured group on success.  `searchFirst`
mirrors `re.search`: try the matcher at every position from the left,
first success wins.  The character classes of the embedded patterns are
closed under their greedy repetitions (no repeated class contains the
character that must follow it), so greedy maximal munch without
backtracking is exact for them. -/

/-- Match a literal character sequence as a prefix, returning the rest. -/
def litP : List Char → List Char → Option (List Char)
  | [], l => some l
  | _ :: _, [] => none
  | p :: ps, c :: cs => if c = p then litP ps cs else none

/-- One-or-more characters satisfying `p` (greedy): the run and the rest. -/
def plusP (p : Char → Bool) (l : List Char) : Option (List Char × List Char) :=
  let run := l.takeWhile p
  if run = [] then none else some (run, l.dropWhile p)

/-- Model of `re.search`: try the matcher at every position, leftmost success wins
    (the empty position at the end of the subject is tried as well). -/
def searchFirst (m : List Char → Option (List Char)) : List Char → Option (List Char)
  | [] => m []
  | c :: cs =>
    match m (c :: cs) with
    | some r => some r
    | none => searchFirst m cs

/-! ### BACKPORT_NO : `\(backport #(\d+)\)\s*$` -/

/-- The matcher of `BACKPORT_NO` at one position: the literal
    `(backport #`, one or more digits (captured), `)`, then nothing but
    whitespace up to the end of the title. -/
def bpMatchAt (l : List Char) : Option (List Char) :=
  match litP "(backport #".data l with
  | none => none
  | some r1 =>
    match plusP isDigitChar r1 with
    | none => none
    | some (ds, r2) =>
      match litP [')'] r2 with
      | none => none
      | some ws => if ws.all isSpaceChar then some ds else none

/-- Model of `PullRequest.backport_no` (pretty_release_notes/models/pull_request.py):
    the number of the `(backport #N)` suffix of the title, if any. -/
def backportNo (title : String) : Option String :=
  (searchFirst bpMatchAt title.data).map List.asString

/-! ### Conventional-commit type -/

/-- The anchored part of the grammar: a run of 2 to 8 letters, an optional
    nonempty parenthesized scope, then a colon; the matched type token is
    returned lowercased. -/
def convTypeAnchored (l1 : List Char) : Option (List Char) :=
  let run := l1.takeWhile Char.isAlpha
  let rest := l1.dropWhile Char.isAlpha
  if run.length < 2 ∨ 8 < run.length then none
  else
    match rest with
    | ':' :: _ => some (run.map Char.toLower)
    | '(' :: r2 =>
      let scope := r2.takeWhile (fun c => c != ')')
      let r3 := r2.dropWhile (fun c => c != ')')
      if scope = [] then none
      else
        match r3 with
        | ')' :: ':' :: _ => some (run.map Char.toLower)
        | _ => none
    | _ => none

/-- Modelled from the spec: `get_conventional_type` of
    `pretty_release_notes/models/_utils.py` is absent from src/ (only its
    caller `pretty_release_notes/models/pull_request.py` and its tests
    `src/tests/test_models_utils.py` are present).  Modelled from the
    spec's grammar: leading whitespace tolerated, then an anchored run of
    2 to 8 letters, an optional parenthesized scope and a colon;
    case-insensitive — the package's tests show the token is returned
    lowercased. -/
def getConventionalType (s : String) : Option String :=
  (convTypeAnchored (s.data.dropWhile isSpaceChar)).map List.asString

/-! ### REVERT_PATTERNS -/

/-- The `[Rr]everts` prefix common to the three revert patterns: only the
    first letter of the verb may be capitalized. -/
def revVerb (l : List Char) : Option (List Char) :=
  match l with
  | c :: cs => if c = 'R' ∨ c = 'r' then litP "everts".data cs else none
  | [] => none

/-- Pattern `[Rr]everts\s+[\w-]+/[\w-]+#(\d+)` at one position. -/
def p1MatchAt (l : List Char) : Option (List Char) :=
  match revVerb l with
  | none => none
  | some r1 =>
    match plusP isSpaceChar r1 with
    | none => none
    | some (_, r2) =>
      match plusP isWordDash r2 with
      | none => none
      | some (_, r3) =>
        match litP ['/'] r3 with
        | none => none
        | some r4 =>
          match plusP isWordDash r4 with
          | none => none
          | some (_, r5) =>
            match litP ['#'] r5 with
            | none => none
            | some r6 => (plusP isDigitChar r6).map Prod.fst

/-- Pattern `[Rr]everts\s+https://github\.com/[\w-]+/[\w-]+/pull/(\d+)` at one
    position. -/
def p2MatchAt (l : List Char) : Option (List Char) :=
  match revVerb l with
  | none => none
  | some r1 =>
    match plusP isSpaceChar r1 with
    | none => none
    | some (_, r2) =>
      match litP "https://github.com/".data r2 with
      | none => none
      | some r3 =>
        match plusP isWordDash r3 with
        | none => none
        | some (_, r4) =>
          match litP ['/'] r4 with
          | none => none
          | some r5 =>
            match plusP isWordDash r5 with
            | none => none
            | some (_, r6) =>
              match litP "/pull/".data r6 with
              | none => none
              | some r7 => (plusP isDigitChar r7).map Prod.fst

/-- Pattern `[Rr]everts\s+#(\d+)` at one position. -/
def p3MatchAt (l : List Char) : Option (List Char) :=
  match revVerb l with
  | none => none
  | some r1 =>
    match plusP isSpaceChar r1 with
    | none => none
    | some (_, r2) =>
      match litP ['#'] r2 with
      | none => none
      | some r3 => (plusP isDigitChar r3).map Prod.fst

/-- Model of `PullRequest.is_revert`: an empty body is falsy; otherwise true iff any
    of the three patterns is found somewhere in the body. -/
def isRevert (body : String) : Bool :=
  if body.data = [] then false
  else
    (searchFirst p1MatchAt body.data).isSome
    || (searchFirst p2MatchAt body.data).isSome
    || (searchFirst p3MatchAt body.data).isSome

/-- Model of `PullRequest.reverted_pr_number`: the captured digits of the first
    pattern, in `REVERT_PATTERNS` order, whose search succeeds. -/
def revertedPrNumber (body : String) : Option String :=
  if body.data = [] then none
  else
    match searchFirst p1MatchAt body.data with
    | some ds => some ds.asString
    | none =>
      match searchFirst p2MatchAt body.data with
      | some ds => some ds.asString
      | none => (searchFirst p3MatchAt body.data).map List.asString

/-! ### PullRequest and its backport chain

`PullRequest.backport_of` holds either `None` or another `PullRequest`,
so a resolved pull request is a finite chain.  `PRData` carries the
fields fetched for one PR; `fetchedReviewers` is the value
`github.get_pr_reviewers` returns for that PR. -/

structure PRData where
  id : Nat
  title : String
  body : String
  htmlUrl : String
  author : String
  mergedBy : Option String
  labels : List String
  fetchedReviewers : List String
deriving DecidableEq

/-- A pull request with its resolved backport chain: `backport d o` is a
    PR whose `backport_of` resolves to `o`. -/
inductive PR where
  | base (d : PRData)
  | backport (d : PRData) (orig : PR)
deriving DecidableEq

def PR.data : PR → PRData
  | .base d => d
  | .backport d _ => d

def PR.backportOf : PR → Option PR
  | .base _ => none
  | .backport _ o => some o

def PR.author (pr : PR) : String := pr.data.author

def PR.mergedBy (pr : PR) : Option String := pr.data.mergedBy

/-- Model of `PullRequest.get_author` (pretty_release_notes): the immediate
    `backport_of`'s own author field when resolved and non-null, else the
    PR's own author — a single hop, not a chain walk. -/
def getAuthor (pr : PR) : String :=
  match pr.backportOf with
  | some o => o.author
  | none => pr.author

/-- Model of `PullRequest.get_author` of the legacy variant
    `src/models/pull_request.py`: `self._get_original_author() or
    self.author`, where `_get_original_author` recurses through the whole
    chain via `backport_of.get_author()`; Python's `or` falls back on the
    empty string. -/
def getAuthorLegacy : PR → String
  | .base d => d.author
  | .backport d o => if getAuthorLegacy o = "" then d.author else getAuthorLegacy o

/-- Follows the spec's words: the author of the chain-original PR,
    obtained by walking `backport_of` to the end of the chain. -/
def specChainOriginalAuthor : PR → String
  | .base d => d.author
  | .backport _ o => specChainOriginalAuthor o

/-- All authors along the chain are nonempty strings (well-formed GitHub
    data; Python's `or` treats `""` as missing). -/
def chainAuthorsNonempty : PR → Bool
  | .base d => d.author != ""
  | .backport d o => d.author != "" && chainAuthorsNonempty o

/-! ### set_reviewers -/

/-- The per-PR part of `set_reviewers`: the fetched reviewers, plus
    `merged_by` when truthy (`if self.merged_by`), minus the PR's own
    author. -/
def ownReviewers (d : PRData) : Finset String :=
  let r0 := d.fetchedReviewers.toFinset
  let r1 := match d.mergedBy with
    | some m => if m = "" then r0 else insert m r0
    | none => r0
  r1.erase d.author

/-- Model of `PullRequest.set_reviewers`: the `_get_original_reviewers` thread
    recursively computes the original's reviewer set; the union-and-discard
    step is guarded by `if self.backport_of and self.backport_of.reviewers`,
    so an EMPTY recursively computed set (falsy in Python) skips both the
    union and the discard of the original author. -/
def setReviewers : PR → Finset String
  | .base d => ownReviewers d
  | .backport d o =>
    let orev := setReviewers o
    if orev = ∅ then ownReviewers d
    else (ownReviewers d ∪ orev).erase o.author

/-- Model of `set_reviewers` with fetch counting: the result set, the number of
    `github.get_pr_reviewers` calls, and the number of `github.get_pr`
    calls (backport resolution in `_set_backport_of`).  `resolved` says
    whether the backport chain was already resolved by an earlier call:
    `_set_backport_of` returns without fetching when `backport_of` is
    already set, while `_get_reviewers` refetches unconditionally. -/
def setReviewersInstr (resolved : Bool) : PR → Finset String × Nat × Nat
  | .base d => (ownReviewers d, 1, 0)
  | .backport d o =>
    let r := setReviewersInstr resolved o
    let res := if r.1 = ∅ then ownReviewers d else (ownReviewers d ∪ r.1).erase o.author
    (res, 1 + r.2.1, (if resolved then 0 else 1) + r.2.2)

def chainLength : PR → Nat
  | .base _ => 1
  | .backport _ o => 1 + chainLength o

/-- A well-formed resolved chain: `backport_of` is populated exactly when
    the title carries the trailing backport marker. -/
def PRwf : PR → Bool
  | .base d => (backportNo d.title).isNone
  | .backport d o => (backportNo d.title).isSome && PRwf o

/-! ### get_summary_key -/

/-- Model of `PullRequest.get_summary_key`: `self.backport_no or str(self.id)` —
    reads only the title and the id, so it works before `backport_of` is
    resolved. -/
def getSummaryKey (d : PRData) : String :=
  match backportNo d.title with
  | some n => if n = "" then toString d.id else n
  | none => toString d.id

def PR.summaryKey (pr : PR) : String := getSummaryKey pr.data

/-! ### The summary cache (pretty_release_notes/database.py)

Only `owner` and `name` of `Repository` are read by the cache. -/

structure Repository where
  owner : String
  name : String
deriving DecidableEq

structure CSVRow where
  owner : String
  repo : String
  prNo : String
  sentence : String
deriving DecidableEq

/-- The header line written by `DictWriter.writeheader`; because
    `DictReader` is constructed with explicit fieldnames, this line is
    read back as an ordinary data row. -/
def headerRow : CSVRow := ⟨"owner", "repo", "pr_no", "sentence"⟩

def rowMatches (r : Repository) (prNo : String) (row : CSVRow) : Bool :=
  row.owner == r.owner && row.repo == r.name && row.prNo == prNo

/-- Model of `CSVDatabase.get_sentence`: a missing file yields None; otherwise the
    FIRST matching row of a top-down linear scan. -/
def csvGet (file : Option (List CSVRow)) (r : Repository) (prNo : String) : Option String :=
  match file with
  | none => none
  | some rows => (rows.find? (rowMatches r prNo)).map CSVRow.sentence

/-- Model of `CSVDatabase.store_sentence`: append-only; a header line is written
    first when the file does not exist yet. -/
def csvStore (file : Option (List CSVRow)) (r : Repository) (prNo s : String) :
    Option (List CSVRow) :=
  match file with
  | none => some [headerRow, ⟨r.owner, r.name, prNo, s⟩]
  | some rows => some (rows ++ [⟨r.owner, r.name, prNo, s⟩])

/-- Model of `CSVDatabase.delete_sentence`: read every line back as a row (the old
    header included), keep the non-matching ones, rewrite the file with a
    fresh header line.  Python raises on a missing file, so the model
    takes the existing rows. -/
def csvDelete (rows : List CSVRow) (r : Repository) (prNo : String) : List CSVRow :=
  headerRow :: rows.filter (fun row => !(rowMatches r prNo row))

/-- Model of `SQLiteDatabase.get_sentence`: `SELECT ... WHERE` without `ORDER BY`,
    then `fetchone`; the model returns the first matching row in insertion
    (rowid) order. -/
def sqlGet (rows : List CSVRow) (r : Repository) (prNo : String) : Option String :=
  (rows.find? (rowMatches r prNo)).map CSVRow.sentence

/-- Model of `SQLiteDatabase.store_sentence`: a plain `INSERT`. -/
def sqlStore (rows : List CSVRow) (r : Repository) (prNo s : String) : List CSVRow :=
  rows ++ [⟨r.owner, r.name, prNo, s⟩]

/-- Model of `SQLiteDatabase.delete_sentence`: `DELETE` of every matching row. -/
def sqlDelete (rows : List CSVRow) (r : Repository) (prNo : String) : List CSVRow :=
  rows.filter (fun row => !(rowMatches r prNo row))

/-! ### ReleaseNotes and its serializer -/

/-- The commit variant of Change.  Modelled from the spec for the fields
    the serializer reads: `pretty_release_notes/models/commit.py` is
    absent from src/ (only its importer
    `pretty_release_notes/models/release_notes_line.py` is present);
    commits carry an id (sha), a message, an author and labels, and their
    conventional type comes from the message. -/
structure CommitData where
  id : String
  message : String
  author : String
  labels : List String
deriving DecidableEq

inductive Change where
  | pr (p : PR)
  | commit (c : CommitData)
deriving DecidableEq

/-- Model of `str(change.id)`: PR ids are numbers, commit ids are shas. -/
def Change.idStr : Change → String
  | .pr p => toString p.data.id
  | .commit c => c.id

def Change.labels : Change → List String
  | .pr p => p.data.labels
  | .commit c => c.labels

/-- Model of `change.conventional_type`. -/
def Change.conventionalType : Change → Option String
  | .pr p => getConventionalType p.data.title
  | .commit c => getConventionalType c.message

def Change.htmlUrl : Change → String
  | .pr p => p.data.htmlUrl
  | .commit c => c.id

/-- Model of `change.get_author()` as used for the Authors footer. -/
def changeAuthor : Change → String
  | .pr p => getAuthor p
  | .commit c => c.author

/-- One parsed line of the release body.  `pr_no` and
    `is_new_contributor` are not read by `serialize` and are omitted. -/
structure ReleaseNotesLine where
  originalLine : String
  change : Option Change
  sentence : Option String
deriving DecidableEq

/-- Model of `ReleaseNotesLine.__str__`: the summary sentence with the change's
    html_url when a (truthy) sentence is set, else the original line
    verbatim. -/
def lineStr (l : ReleaseNotesLine) : String :=
  match l.sentence, l.change with
  | some s, some c => if s = "" then l.originalLine else "* " ++ s ++ " (" ++ c.htmlUrl ++ ")"
  | _, _ => l.originalLine

/-- Ids of all changes present in the document
    (`pr_numbers_in_release` of `_get_reverted_pr_numbers`). -/
def changeIds (lines : List ReleaseNotesLine) : List String :=
  lines.filterMap (fun l => l.change.map Change.idStr)

def Change.isRevertB : Change → Bool
  | .pr p => isRevert p.data.body
  | .commit _ => false

def Change.revertedNo : Change → Option String
  | .pr p => revertedPrNumber p.data.body
  | .commit _ => none

/-- Model of `ReleaseNotes._get_reverted_pr_numbers`: the targets of reverts in the
    document whose original is also in the document (commits have no
    `is_revert` attribute and are skipped by the hasattr guards). -/
def revertedPrNumbers (lines : List ReleaseNotesLine) : List String :=
  lines.filterMap (fun l =>
    match l.change with
    | some c =>
      if c.isRevertB then
        match c.revertedNo with
        | some n => if n = "" then none else if n ∈ changeIds lines then some n else none
        | none => none
      else none
    | none => none)

/-- Model of `is_reverted_or_revert` inside `ReleaseNotes.serialize`: commits are
    never excluded (no `is_revert` attribute); a PR is excluded when it is
    a revert whose target is in the reverted set, or when its own id is in
    the reverted set. -/
def isRevertedOrRevert (lines : List ReleaseNotesLine) (c : Change) : Bool :=
  match c with
  | .commit _ => false
  | .pr p =>
    (isRevert p.data.body &&
      (match revertedPrNumber p.data.body with
       | some n => decide (n ∈ revertedPrNumbers lines)
       | none => false))
    || decide (toString p.data.id ∈ revertedPrNumbers lines)

/-- Follows the spec's words (revert-pair suppression): an id is a revert
    target within the document when it is the id of some change present in
    the document and some pull-request change of the document is a revert
    targeting it. -/
def specIsRevertTarget (lines : List ReleaseNotesLine) (nn : String) : Prop :=
  nn ∈ changeIds lines ∧ ∃ l ∈ lines, ∃ p : PR, l.change = some (.pr p) ∧
    isRevert p.data.body = true ∧ revertedPrNumber p.data.body = some nn

/-- Follows the spec's words (C4): the excluded set is exactly the changes
    that are reverts whose target id is present in the document, together
    with the changes whose own id is such a target. -/
def specExcluded (lines : List ReleaseNotesLine) (c : Change) : Prop :=
  (∃ p : PR, c = .pr p ∧ isRevert p.data.body = true ∧
    ∃ nn, revertedPrNumber p.data.body = some nn ∧ nn ∈ changeIds lines)
  ∨ specIsRevertTarget lines c.idStr

/-- Model of `is_exluded_type` inside serialize (a falsy conventional type or an
    empty exclusion set never excludes). -/
def isExcludedType (excT : List String) (c : Change) : Bool :=
  match c.conventionalType with
  | some t => decide (t ∈ excT)
  | none => false

/-- Model of `has_excluded_label` inside serialize: the label sets intersect. -/
def hasExcludedLabel (excL : List String) (c : Change) : Bool :=
  c.labels.any (fun lb => decide (lb ∈ excL))

/-- A line survives the filters: lines without a change always do. -/
def keepLine (lines : List ReleaseNotesLine) (excT excL : List String)
    (l : ReleaseNotesLine) : Bool :=
  match l.change with
  | none => true
  | some c => !(isExcludedType excT c || hasExcludedLabel excL c || isRevertedOrRevert lines c)

/-- The lines emitted by `serialize` in flat (non-grouped) mode: the kept
    lines, in original order, rendered by `ReleaseNotesLine.__str__`. -/
def flatLines (lines : List ReleaseNotesLine) (excT excL : List String) : List String :=
  (lines.filter (keepLine lines excT excL)).map lineStr

/-! #### Grouped mode -/

structure GroupingConfig where
  typeHeadings : List (String × String)
  otherHeading : String
deriving DecidableEq

/-- The default `type_headings` dict of `GroupingConfig`. -/
def defaultTypeHeadings : List (String × String) :=
  [("feat", "Features"), ("fix", "Bug Fixes"), ("perf", "Performance Improvements"),
   ("docs", "Documentation"), ("refactor", "Code Refactoring"), ("test", "Tests"),
   ("build", "Build System"), ("ci", "CI/CD"), ("chore", "Chores"),
   ("style", "Style"), ("revert", "Reverts")]

def lookupHeading : List (String × String) → String → Option String
  | [], _ => none
  | (k, v) :: rest, t => if k = t then some v else lookupHeading rest t

/-- Model of `GroupingConfig.get_heading`. -/
def getHeading (cfg : GroupingConfig) (t : Option String) : String :=
  match t with
  | none => cfg.otherHeading
  | some ty =>
    if ty = "" then cfg.otherHeading
    else (lookupHeading cfg.typeHeadings ty).getD cfg.otherHeading

/-- The fixed `type_order` of serialize. -/
def typeOrder : List String :=
  ["feat", "fix", "perf", "docs", "refactor", "test", "build", "ci", "chore", "style", "revert"]

def lineType (l : ReleaseNotesLine) : Option String :=
  l.change.bind Change.conventionalType

/-- First-occurrence deduplication: the key order of a Python dict built
    by insertion. -/
def dedupFirst : List String → List String
  | [] => []
  | x :: xs => x :: (dedupFirst xs).filter (fun y => !(y == x))

/-- The kept lines that carry a change (lines without a change are
    silently skipped by the grouped branch). -/
def keptChanged (lines : List ReleaseNotesLine) (excT excL : List String) :
    List ReleaseNotesLine :=
  lines.filter (fun l => l.change.isSome && keepLine lines excT excL l)

/-- The keys of `grouped_lines`, in dict insertion order. -/
def groupKeys (lines : List ReleaseNotesLine) (excT excL : List String) : List String :=
  dedupFirst ((keptChanged lines excT excL).filterMap lineType)

def linesOfType (lines : List ReleaseNotesLine) (excT excL : List String)
    (k : String) : List ReleaseNotesLine :=
  (keptChanged lines excT excL).filter (fun l => lineType l == some k)

/-- Model of `other_lines`: kept lines whose change has no conventional type. -/
def otherLines (lines : List ReleaseNotesLine) (excT excL : List String) :
    List ReleaseNotesLine :=
  (keptChanged lines excT excL).filter (fun l => (lineType l).isNone)

/-- One `## heading` section: heading, member lines, a trailing blank. -/
def sectionFor (cfg : GroupingConfig) (lines : List ReleaseNotesLine)
    (excT excL : List String) (k : String) : List String :=
  ("## " ++ getHeading cfg (some k)) :: ((linesOfType lines excT excL k).map lineStr ++ [""])

/-- The lines emitted by `serialize` in grouped mode: standard-order
    sections, then non-standard types in insertion order, then the Other
    section.  Pass-through lines (no change) are dropped entirely. -/
def groupedLines (lines : List ReleaseNotesLine) (excT excL : List String)
    (cfg : GroupingConfig) : List String :=
  let keys := groupKeys lines excT excL
  let ordered := typeOrder.filter (fun k => decide (k ∈ keys))
  let extra := keys.filter (fun k => !(decide (k ∈ typeOrder)))
  ((ordered ++ extra).flatMap (sectionFor cfg lines excT excL))
    ++ (if otherLines lines excT excL = [] then []
        else ("## " ++ cfg.otherHeading) :: ((otherLines lines excT excL).map lineStr ++ [""]))

/-- Model of `ReleaseNotes.serialize`: the body (flat or grouped) followed by the
    Authors and Reviewers footers.  Python renders the footers from sets
    whose iteration order is unspecified; the model fixes
    first-occurrence document order (reviewer sets sorted).  The optional
    `model_name` disclaimer block is outside the claims and omitted. -/
def serialize (lines : List ReleaseNotesLine) (excT excL excA : List String)
    (grouped : Bool) (cfg : GroupingConfig) : String :=
  let body := String.intercalate "\n"
    (if grouped then groupedLines lines excT excL cfg else flatLines lines excT excL)
  let authors := (dedupFirst (lines.filterMap (fun l => l.change.map changeAuthor))).filter
    (fun a => !(decide (a ∈ excA)))
  let reviewers := (dedupFirst (lines.flatMap (fun l =>
      match l.change with
      | some (.pr p) => (setReviewers p).sort (fun a b => a ≤ b)
      | _ => []))).filter (fun a => !(decide (a ∈ excA)))
  let s1 :=
    if authors = [] then body
    else body ++ "\n**Authors**: " ++ String.intercalate ", " (authors.map (fun a => "@" ++ a))
  if reviewers = [] then s1
  else s1 ++ "\n**Reviewers**: " ++ String.intercalate ", " (reviewers.map (fun a => "@" ++ a))

/-! ### Concrete instances used by counterexamples and witnesses -/

/-- A three-long backport chain B → M → O with pairwise distinct
    authors. -/
def dO1 : PRData :=
  { id := 100, title := "feat: original", body := "", htmlUrl := "u100",
    author := "olivia", mergedBy := some "olivia", labels := [], fetchedReviewers := [] }

def dM1 : PRData :=
  { id := 150, title := "feat: original (backport #100)", body := "", htmlUrl := "u150",
    author := "mallory", mergedBy := some "mallory", labels := [], fetchedReviewers := [] }

def dB1 : PRData :=
  { id := 200, title := "feat: original (backport #150)", body := "", htmlUrl := "u200",
    author := "bianca", mergedBy := some "bianca", labels := [], fetchedReviewers := [] }

def exO1 : PR := .base dO1
def exM1 : PR := .backport dM1 exO1
def exB1 : PR := .backport dB1 exM1

/-- Original PR whose author alice merged her own PR with no reviews, so
    its computed reviewer set is empty (falsy). -/
def dO2 : PRData :=
  { id := 100, title := "fix: original", body := "", htmlUrl := "u100",
    author := "alice", mergedBy := some "alice", labels := [], fetchedReviewers := [] }

def exO2 : PR := .base dO2

/-- Backport of `exO2` authored by bob; alice (the original author)
    reviewed the backport. -/
def dB2 : PRData :=
  { id := 200, title := "fix: original (backport #100)", body := "", htmlUrl := "u200",
    author := "bob", mergedBy := some "carol", labels := [], fetchedReviewers := ["alice"] }

def exB2 : PR := .backport dB2 exO2

/-- Original PR authored by alice and reviewed by bob. -/
def dO3 : PRData :=
  { id := 101, title := "feat: z", body := "", htmlUrl := "u101",
    author := "alice", mergedBy := some "dave", labels := [], fetchedReviewers := ["bob"] }

def exO3 : PR := .base dO3

/-- Backport of `exO3` whose author bob merged his own backport. -/
def dB3 : PRData :=
  { id := 201, title := "feat: z (backport #101)", body := "", htmlUrl := "u201",
    author := "bob", mergedBy := some "bob", labels := [], fetchedReviewers := [] }

def exB3 : PR := .backport dB3 exO3

/-- A non-backport PR whose author merged their own PR. -/
def dW3 : PRData :=
  { id := 300, title := "fix: w", body := "", htmlUrl := "u300",
    author := "dan", mergedBy := some "dan", labels := [], fetchedReviewers := ["eve", "dan"] }

/-- A non-backport PR used for the fetch-count theorems. -/
def exP7 : PR :=
  .base { id := 7, title := "fix: y", body := "", htmlUrl := "u7",
          author := "pat", mergedBy := none, labels := [], fetchedReviewers := ["quinn"] }

/-- PR data carrying a backport marker for PR 42, and the data of PR 42
    itself. -/
def dKeyB : PRData :=
  { id := 99, title := "feat: x (backport #42)", body := "", htmlUrl := "u99",
    author := "ann", mergedBy := none, labels := [], fetchedReviewers := [] }

def dKeyO : PRData :=
  { id := 42, title := "feat: x", body := "", htmlUrl := "u42",
    author := "ann", mergedBy := none, labels := [], fetchedReviewers := [] }

/-- A concrete repository for the cache theorems. -/
def rEx : Repository := ⟨"frappe", "erpnext"⟩

/-- A feature PR, the PR that reverts it, and an unrelated PR, mirroring
    test_revert_filtering_in_same_release. -/
def exXpr : PR :=
  .base { id := 100, title := "feat: add new feature", body := "Implements feature X",
          htmlUrl := "https://example.com/100", author := "xena", mergedBy := some "mia",
          labels := [], fetchedReviewers := [] }

def exYpr : PR :=
  .base { id := 105, title := "Revert feat add new feature",
          body := "Reverts frappe/frappe#100\n\nThis broke production",
          htmlUrl := "https://example.com/105", author := "yuri", mergedBy := some "mia",
          labels := [], fetchedReviewers := [] }

def exOtherPr : PR :=
  .base { id := 102, title := "fix: unrelated bug fix", body := "Fixes issue Y",
          htmlUrl := "https://example.com/102", author := "zoe", mergedBy := some "mia",
          labels := [], fetchedReviewers := [] }

def lineX : ReleaseNotesLine := ⟨"* old line 100", some (.pr exXpr), some "Added new feature X"⟩

def lineOther : ReleaseNotesLine := ⟨"* old line 102", some (.pr exOtherPr), some "Fixed issue Y"⟩

def lineY : ReleaseNotesLine := ⟨"* old line 105", some (.pr exYpr), some "Reverted feature X"⟩

/-- Document containing the feature, an unrelated fix and the revert. -/
def docXY : List ReleaseNotesLine := [lineX, lineOther, lineY]

/-- Document containing only the revert (its target absent). -/
def docY : List ReleaseNotesLine := [lineY]

/-- A commit change whose sha happens to be the digit string "100". -/
def exCommitC : CommitData := ⟨"100", "Update translations", "zed", []⟩

def lineC : ReleaseNotesLine := ⟨"* raw commit line", some (.commit exCommitC), none⟩

/-- Mixed document: the commit with id "100" and the PR reverting #100. -/
def docCY : List ReleaseNotesLine := [lineC, lineY]

/-- A pass-through header line (no change resolved). -/
def lineHdr : ReleaseNotesLine := ⟨"## What's Changed", none, none⟩

/-- Document with a pass-through line and one resolved feature line. -/
def docG : List ReleaseNotesLine := [lineHdr, lineX]

/-- The default grouping configuration. -/
def cfgDefault : GroupingConfig := ⟨defaultTypeHeadings, "Other Changes"⟩

/-! ### Toolkit lemmas for the character-level matchers -/

lemma pred_ne {p : Char → Bool} {c d : Char} (h : p c = true) (hd : p d = false) : c ≠ d := by
  intro he
  subst he
  rw [h] at hd
  cases hd

lemma space_char_cases {c : Char} (h : isSpaceChar c = true) :
    c = ' ' ∨ c = '\t' ∨ c = '\n' ∨ c = '\r' ∨ c = '\x0b' ∨ c = '\x0c' := by
  simpa [isSpaceChar, or_assoc] using h

lemma alpha_not_space {c : Char} (h : c.isAlpha = true) : isSpaceChar c = false := by
  cases hs : isSpaceChar c
  · rfl
  · exfalso
    rcases space_char_cases hs with h' | h' | h' | h' | h' | h' <;> subst h' <;>
      exact absurd h (by decide)

lemma worddash_not_space {c : Char} (h : isWordDash c = true) : isSpaceChar c = false := by
  cases hs : isSpaceChar c
  · rfl
  · exfalso
    rcases space_char_cases hs with h' | h' | h' | h' | h' | h' <;> subst h' <;>
      exact absurd h (by decide)

lemma digit_not_space {c : Char} (h : isDigitChar c = true) : isSpaceChar c = false := by
  cases hs : isSpaceChar c
  · rfl
  · exfalso
    rcases space_char_cases hs with h' | h' | h' | h' | h' | h' <;> subst h' <;>
      exact absurd h (by decide)

lemma tw_all {p : Char → Bool} : ∀ {l : List Char}, (∀ c ∈ l, p c = true) → l.takeWhile p = l
  | [], _ => rfl
  | c :: cs, h => by
    have hc : p c = true := h c (List.mem_cons_self c cs)
    simp [List.takeWhile_cons, hc, tw_all (fun d hd => h d (List.mem_cons_of_mem c hd))]

lemma dw_all {p : Char → Bool} : ∀ {l : List Char}, (∀ c ∈ l, p c = true) → l.dropWhile p = []
  | [], _ => rfl
  | c :: cs, h => by
    have hc : p c = true := h c (List.mem_cons_self c cs)
    simp [List.dropWhile_cons, hc, dw_all (fun d hd => h d (List.mem_cons_of_mem c hd))]

lemma tw_append {p : Char → Bool} :
    ∀ {a : List Char} (b : List Char), (∀ c ∈ a, p c = true) →
      (a ++ b).takeWhile p = a ++ b.takeWhile p
  | [], b, _ => rfl
  | c :: cs, b, h => by
    have hc : p c = true := h c (List.mem_cons_self c cs)
    simp [List.takeWhile_cons, hc, tw_append b (fun d hd => h d (List.mem_cons_of_mem c hd))]

lemma dw_append {p : Char → Bool} :
    ∀ {a : List Char} (b : List Char), (∀ c ∈ a, p c = true) →
      (a ++ b).dropWhile p = b.dropWhile p
  | [], _, _ => rfl
  | c :: cs, b, h => by
    have hc : p c = true := h c (List.mem_cons_self c cs)
    simp [List.dropWhile_cons, hc, dw_append b (fun d hd => h d (List.mem_cons_of_mem c hd))]

lemma tw_mem {p : Char → Bool} : ∀ {l : List Char} {c : Char}, c ∈ l.takeWhile p → p c = true
  | [], _, h => by cases h
  | a :: as, c, h => by
    by_cases ha : p a = true
    · rw [List.takeWhile_cons, if_pos ha] at h
      rcases List.mem_cons.mp h with h' | h'
      · exact h' ▸ ha
      · exact tw_mem h'
    · rw [List.takeWhile_cons, if_neg ha] at h
      cases h

lemma dw_of_tw_nil {p : Char → Bool} {b : List Char} (h : b.takeWhile p = []) :
    b.dropWhile p = b := by
  cases b with
  | nil => rfl
  | cons c cs =>
    by_cases hc : p c = true
    · rw [List.takeWhile_cons, if_pos hc] at h
      cases h
    · rw [List.dropWhile_cons, if_neg hc]

lemma tw_nil_of_head {p : Char → Bool} {c : Char} {cs : List Char} (hc : p c = false) :
    (c :: cs).takeWhile p = [] := by
  rw [List.takeWhile_cons, if_neg (by simp [hc])]

lemma plusP_complete {p : Char → Bool} {a b : List Char} (h : ∀ c ∈ a, p c = true)
    (ha : a ≠ []) (hb : b.takeWhile p = []) : plusP p (a ++ b) = some (a, b) := by
  unfold plusP
  rw [tw_append b h, dw_append b h, hb, dw_of_tw_nil hb, List.append_nil]
  simp [ha]

lemma plusP_sound {p : Char → Bool} {l run rest : List Char}
    (h : plusP p l = some (run, rest)) :
    l = run ++ rest ∧ run ≠ [] ∧ (∀ c ∈ run, p c = true) := by
  simp only [plusP] at h
  by_cases hn : l.takeWhile p = []
  · rw [if_pos hn] at h
    cases h
  · rw [if_neg hn] at h
    simp only [Option.some.injEq, Prod.mk.injEq] at h
    obtain ⟨h1, h2⟩ := h
    refine ⟨?_, ?_, ?_⟩
    · rw [← h1, ← h2]
      exact (List.takeWhile_append_dropWhile p l).symm
    · rw [← h1]
      exact hn
    · intro c hc
      rw [← h1] at hc
      exact tw_mem hc

lemma litP_append : ∀ (pat rest : List Char), litP pat (pat ++ rest) = some rest
  | [], _ => rfl
  | p :: ps, rest => by simp [litP, litP_append ps rest]

lemma litP_sound : ∀ {pat l r : List Char}, litP pat l = some r → l = pat ++ r
  | [], l, r, h => by
    simp [litP] at h
    simpa using h
  | p :: ps, [], r, h => by cases h
  | p :: ps, c :: cs, r, h => by
    by_cases hc : c = p
    · subst hc
      rw [litP, if_pos rfl] at h
      simpa using litP_sound h
    · rw [litP, if_neg hc] at h
      cases h

lemma searchFirst_of_match {m : List Char → Option (List Char)} {l r : List Char}
    (h : m l = some r) : searchFirst m l = some r := by
  cases l with
  | nil => simpa [searchFirst] using h
  | cons c cs => simp [searchFirst, h]

lemma searchFirst_append {m : List Char → Option (List Char)} :
    ∀ {a : List Char} {b : List Char}, (∀ k < a.length, m (a.drop k ++ b) = none) →
      searchFirst m (a ++ b) = searchFirst m b
  | [], b, _ => rfl
  | c :: cs, b, h => by
    have h0 : m (c :: (cs ++ b)) = none := by simpa using h 0 (Nat.succ_pos _)
    have hrest : ∀ k < cs.length, m (cs.drop k ++ b) = none := fun k hk => by
      simpa using h (k + 1) (Nat.succ_lt_succ hk)
    simp only [List.cons_append, searchFirst, List.append_eq, h0]
    exact searchFirst_append hrest

lemma searchFirst_sound {m : List Char → Option (List Char)} :
    ∀ {l r : List Char}, searchFirst m l = some r → ∃ k, m (l.drop k) = some r
  | [], r, h => ⟨0, by simpa [searchFirst] using h⟩
  | c :: cs, r, h => by
    cases hm : m (c :: cs) with
    | some x =>
      simp only [searchFirst, hm] at h
      exact ⟨0, by simp [hm, h]⟩
    | none =>
      simp only [searchFirst, hm] at h
      obtain ⟨k, hk⟩ := searchFirst_sound h
      exact ⟨k + 1, by simpa using hk⟩

lemma searchFirst_none {m : List Char → Option (List Char)} :
    ∀ {l : List Char}, (∀ k, m (l.drop k) = none) → searchFirst m l = none
  | [], h => by simpa [searchFirst] using h 0
  | c :: cs, h => by
    have h0 : m (c :: cs) = none := by simpa using h 0
    simp only [searchFirst, h0]
    exact searchFirst_none fun k => by simpa using h (k + 1)

lemma dw_cons_false {p : Char → Bool} {c : Char} {cs : List Char} (hc : p c = false) :
    (c :: cs).dropWhile p = c :: cs := by
  rw [List.dropWhile_cons, if_neg (by simp [hc])]

lemma asString_data (l : List Char) : (List.asString l).data = l := rfl

lemma string_mk_data (s : String) : (String.mk s.data) = s := rfl

/-! ### Lemmas about the BACKPORT_NO matcher -/

lemma bpMatchAt_complete {ds ws : List Char} (hds : ds ≠ [])
    (hdig : ∀ c ∈ ds, isDigitChar c = true) (hws : ∀ c ∈ ws, isSpaceChar c = true) :
    bpMatchAt ("(backport #".data ++ (ds ++ ')' :: ws)) = some ds := by
  unfold bpMatchAt
  rw [litP_append]
  simp only []
  rw [plusP_complete hdig hds (tw_nil_of_head (by decide))]
  simp only []
  rw [show (')' :: ws : List Char) = [')'] ++ ws from rfl, litP_append]
  simp only []
  rw [if_pos (List.all_eq_true.mpr hws)]

lemma bpMatchAt_sound {l ds : List Char} (h : bpMatchAt l = some ds) :
    ∃ ws, l = "(backport #".data ++ (ds ++ ')' :: ws) ∧ ds ≠ [] ∧
      (∀ c ∈ ds, isDigitChar c = true) ∧ (∀ c ∈ ws, isSpaceChar c = true) := by
  unfold bpMatchAt at h
  cases hlit : litP "(backport #".data l with
  | none => rw [hlit] at h; cases h
  | some r1 =>
    rw [hlit] at h
    simp only [] at h
    cases hp : plusP isDigitChar r1 with
    | none => rw [hp] at h; cases h
    | some pr =>
      obtain ⟨run, r2⟩ := pr
      rw [hp] at h
      obtain ⟨hr1, hrun, hdig⟩ := plusP_sound hp
      simp only [] at h
      cases hcl : litP [')'] r2 with
      | none => rw [hcl] at h; cases h
      | some ws2 =>
        rw [hcl] at h
        simp only [] at h
        by_cases hws2 : ws2.all isSpaceChar = true
        · rw [if_pos hws2] at h
          injection h with hds'
          subst hds'
          refine ⟨ws2, ?_, hrun, hdig, fun c hc => List.all_eq_true.mp hws2 c hc⟩
          rw [litP_sound hlit, hr1, litP_sound hcl]
          simp
        · rw [if_neg hws2] at h
          cases h

/-- No character after the opening parenthesis of a successful
    BACKPORT_NO match region is `(` — so two successful match positions
    cannot coexist, and no position strictly inside a prefix can match
    when the marker follows the prefix. -/
lemma bp_tail_no_paren {ds ws : List Char} (hdig : ∀ c ∈ ds, isDigitChar c = true)
    (hws : ∀ c ∈ ws, isSpaceChar c = true) :
    ∀ c ∈ ("backport #".data ++ (ds ++ ')' :: ws)), c ≠ '(' := by
  intro c hc
  rcases List.mem_append.mp hc with hc | hc
  · have hmem : c ∈ ['b', 'a', 'c', 'k', 'p', 'o', 'r', 't', ' ', '#'] := by simpa using hc
    fin_cases hmem <;> decide
  · rcases List.mem_append.mp hc with hc | hc
    · exact pred_ne (hdig c hc) (by decide)
    · rcases List.mem_cons.mp hc with hc | hc
      · subst hc; decide
      · exact pred_ne (hws c hc) (by decide)

lemma searchBp_complete {pre ds ws : List Char} (hds : ds ≠ [])
    (hdig : ∀ c ∈ ds, isDigitChar c = true) (hws : ∀ c ∈ ws, isSpaceChar c = true) :
    searchFirst bpMatchAt (pre ++ ("(backport #".data ++ (ds ++ ')' :: ws))) = some ds := by
  rw [searchFirst_append]
  · exact searchFirst_of_match (bpMatchAt_complete hds hdig hws)
  · intro k hk
    cases hres : bpMatchAt (pre.drop k ++ ("(backport #".data ++ (ds ++ ')' :: ws))) with
    | none => rfl
    | some ds' =>
      exfalso
      obtain ⟨ws', hshape, _, hdig', hws'⟩ := bpMatchAt_sound hres
      have hne : pre.drop k ≠ [] := by
        intro hnil
        have := List.drop_eq_nil_iff.mp hnil
        omega
      obtain ⟨c, t, hct⟩ := List.exists_cons_of_ne_nil hne
      rw [hct, List.cons_append] at hshape
      have hshape2 : c :: (t ++ ("(backport #".data ++ (ds ++ ')' :: ws)))
          = '(' :: ("backport #".data ++ (ds' ++ ')' :: ws')) := by
        rw [hshape]
        rfl
      injection hshape2 with h1 h2
      have hmem : ('(' : Char) ∈ t ++ ("(backport #".data ++ (ds ++ ')' :: ws)) :=
        List.mem_append_right _ (List.mem_append_left _ (by decide))
      rw [h2] at hmem
      exact bp_tail_no_paren hdig' hws' '(' hmem rfl

lemma str_data_append (a b : String) : (a ++ b).data = a.data ++ b.data := rfl

/-- Completeness: `backport_no` finds a trailing marker after an arbitrary prefix. -/
lemma backportNo_complete {pre ds ws : List Char} (hds : ds ≠ [])
    (hdig : ∀ c ∈ ds, isDigitChar c = true) (hws : ∀ c ∈ ws, isSpaceChar c = true)
    {title : String} (ht : title.data = pre ++ ("(backport #".data ++ (ds ++ ')' :: ws))) :
    backportNo title = some ds.asString := by
  unfold backportNo
  rw [ht, searchBp_complete hds hdig hws]
  rfl

/-- Soundness: `backport_no` succeeds only on a trailing marker: whatever it captures
    sits between the literal `(backport #`, a closing parenthesis and
    nothing but whitespace up to the end of the title. -/
lemma backportNo_sound {title n : String} (h : backportNo title = some n) :
    ∃ pre ws, title.data = pre ++ ("(backport #".data ++ (n.data ++ ')' :: ws)) ∧
      n.data ≠ [] ∧ (∀ c ∈ n.data, isDigitChar c = true) ∧
      (∀ c ∈ ws, isSpaceChar c = true) := by
  unfold backportNo at h
  cases hs : searchFirst bpMatchAt title.data with
  | none => rw [hs] at h; cases h
  | some ds =>
    rw [hs] at h
    injection h with h'
    obtain ⟨k, hk⟩ := searchFirst_sound hs
    obtain ⟨ws, hshape, hne, hdig, hws⟩ := bpMatchAt_sound hk
    refine ⟨title.data.take k, ws, ?_, ?_, ?_, hws⟩
    · rw [← h', asString_data]
      rw [← hshape, List.take_append_drop]
    · rw [← h', asString_data]; exact hne
    · rw [← h', asString_data]; exact hdig

lemma backportNo_ne_empty {title n : String} (h : backportNo title = some n) : n ≠ "" := by
  obtain ⟨_, _, _, hne, _⟩ := backportNo_sound h
  intro he
  subst he
  exact hne rfl

/-! ### Lemmas about the conventional-type grammar -/

lemma convTypeAnchored_complete {ty scope rest : List Char}
    (hty : ∀ c ∈ ty, c.isAlpha = true) (h2 : 2 ≤ ty.length) (h8 : ty.length ≤ 8)
    (hs : scope ≠ []) (hsc : ∀ c ∈ scope, (c != ')') = true) :
    convTypeAnchored (ty ++ ('(' :: (scope ++ ')' :: ':' :: rest)))
      = some (ty.map Char.toLower) := by
  unfold convTypeAnchored
  rw [tw_append _ hty, tw_nil_of_head (by decide), List.append_nil]
  rw [dw_append _ hty, dw_cons_false (by decide)]
  rw [if_neg (by omega)]
  simp only []
  rw [tw_append _ hsc, tw_nil_of_head (by decide), List.append_nil]
  rw [dw_append _ hsc, dw_cons_false (by decide)]
  rw [if_neg hs]
  rfl

lemma convTypeAnchored_colon {ty rest : List Char}
    (hty : ∀ c ∈ ty, c.isAlpha = true) (h2 : 2 ≤ ty.length) (h8 : ty.length ≤ 8) :
    convTypeAnchored (ty ++ (':' :: rest)) = some (ty.map Char.toLower) := by
  unfold convTypeAnchored
  rw [tw_append _ hty, tw_nil_of_head (by decide), List.append_nil]
  rw [dw_append _ hty, dw_cons_false (by decide)]
  rw [if_neg (by omega)]
  rfl

lemma convTypeAnchored_out_of_bounds {w rest : List Char}
    (hw : ∀ c ∈ w, c.isAlpha = true) (hlen : w.length < 2 ∨ 8 < w.length) :
    convTypeAnchored (w ++ (':' :: rest)) = none := by
  unfold convTypeAnchored
  rw [tw_append _ hw, tw_nil_of_head (by decide), List.append_nil]
  rw [if_pos hlen]

lemma getConventionalType_ws {ws : List Char} (t : String)
    (hws : ∀ c ∈ ws, isSpaceChar c = true) :
    getConventionalType (String.mk (ws ++ t.data)) = getConventionalType t := by
  unfold getConventionalType
  rw [show (String.mk (ws ++ t.data)).data = ws ++ t.data from rfl]
  rw [dw_append _ hws]

/-- When the title starts with a letter, the leading `dropWhile` is the
    identity. -/
lemma dropWhile_space_of_alpha {c : Char} {cs : List Char} (hc : c.isAlpha = true) :
    (c :: cs).dropWhile isSpaceChar = c :: cs :=
  dw_cons_false (alpha_not_space hc)

/-! ### Lemmas about the revert-pattern matchers -/

lemma revVerb_cons {v : Char} (hv : v = 'R' ∨ v = 'r') (rest : List Char) :
    revVerb (v :: ("everts".data ++ rest)) = some rest := by
  unfold revVerb
  simp only []
  rw [if_pos hv, litP_append]

lemma revVerb_digit {d : Char} {ds : List Char} (hd : isDigitChar d = true) :
    revVerb (d :: ds) = none := by
  unfold revVerb
  simp only []
  rw [if_neg]
  rintro (h | h)
  · exact pred_ne hd (by decide) h
  · exact pred_ne hd (by decide) h

lemma p1MatchAt_digit {d : Char} {ds : List Char} (hd : isDigitChar d = true) :
    p1MatchAt (d :: ds) = none := by
  unfold p1MatchAt
  rw [revVerb_digit hd]

lemma p2MatchAt_digit {d : Char} {ds : List Char} (hd : isDigitChar d = true) :
    p2MatchAt (d :: ds) = none := by
  unfold p2MatchAt
  rw [revVerb_digit hd]

lemma p3MatchAt_digit {d : Char} {ds : List Char} (hd : isDigitChar d = true) :
    p3MatchAt (d :: ds) = none := by
  unfold p3MatchAt
  rw [revVerb_digit hd]

/-- A search over a digit-only list fails for a matcher that rejects the
    empty list and any list starting with a digit. -/
lemma searchFirst_digits {m : List Char → Option (List Char)}
    (hnil : m [] = none) (hdm : ∀ d ds, isDigitChar d = true → m (d :: ds) = none)
    {n : List Char} (hn : ∀ c ∈ n, isDigitChar c = true) :
    searchFirst m n = none := by
  apply searchFirst_none
  intro k
  cases hd : n.drop k with
  | nil => exact hnil
  | cons d ds =>
    apply hdm
    apply hn
    exact List.drop_subset k n (hd ▸ List.mem_cons_self d ds)

/-- Completeness of the first revert pattern at position 0. -/
lemma p1_complete {v : Char} (hv : v = 'R' ∨ v = 'r') {ws o r n rest : List Char}
    (hws : ws ≠ []) (hwsall : ∀ c ∈ ws, isSpaceChar c = true)
    (ho : o ≠ []) (hoall : ∀ c ∈ o, isWordDash c = true)
    (hr : r ≠ []) (hrall : ∀ c ∈ r, isWordDash c = true)
    (hn : n ≠ []) (hnall : ∀ c ∈ n, isDigitChar c = true)
    (hrest : rest.takeWhile isDigitChar = []) :
    p1MatchAt (v :: ("everts".data ++ (ws ++ (o ++ '/' :: (r ++ '#' :: (n ++ rest))))))
      = some n := by
  obtain ⟨oc, ot, hoct⟩ := List.exists_cons_of_ne_nil ho
  have hohead : (o ++ '/' :: (r ++ '#' :: (n ++ rest))).takeWhile isSpaceChar = [] := by
    rw [hoct]
    exact tw_nil_of_head (worddash_not_space (hoall oc (hoct ▸ List.mem_cons_self oc ot)))
  unfold p1MatchAt
  rw [revVerb_cons hv]
  simp only []
  rw [plusP_complete hwsall hws hohead]
  simp only []
  rw [plusP_complete hoall ho (tw_nil_of_head (by decide))]
  simp only []
  rw [show ('/' :: (r ++ '#' :: (n ++ rest)) : List Char) = ['/'] ++ (r ++ '#' :: (n ++ rest)) from rfl,
    litP_append]
  simp only []
  rw [plusP_complete hrall hr (tw_nil_of_head (by decide))]
  simp only []
  rw [show ('#' :: (n ++ rest) : List Char) = ['#'] ++ (n ++ rest) from rfl, litP_append]
  simp only []
  unfold plusP
  rw [tw_append _ hnall, hrest, List.append_nil]
  rw [if_neg hn]
  rfl

/-- Completeness of the second revert pattern at position 0. -/
lemma p2_complete {v : Char} (hv : v = 'R' ∨ v = 'r') {ws o r n rest : List Char}
    (hws : ws ≠ []) (hwsall : ∀ c ∈ ws, isSpaceChar c = true)
    (ho : o ≠ []) (hoall : ∀ c ∈ o, isWordDash c = true)
    (hr : r ≠ []) (hrall : ∀ c ∈ r, isWordDash c = true)
    (hn : n ≠ []) (hnall : ∀ c ∈ n, isDigitChar c = true)
    (hrest : rest.takeWhile isDigitChar = []) :
    p2MatchAt (v :: ("everts".data ++ (ws ++ ("https://github.com/".data
        ++ (o ++ '/' :: (r ++ ("/pull/".data ++ (n ++ rest)))))))) = some n := by
  have hhead : ("https://github.com/".data
      ++ (o ++ '/' :: (r ++ ("/pull/".data ++ (n ++ rest))))).takeWhile isSpaceChar = [] := by
    exact tw_nil_of_head (by decide)
  unfold p2MatchAt
  rw [revVerb_cons hv]
  simp only []
  rw [plusP_complete hwsall hws hhead]
  simp only []
  rw [litP_append]
  simp only []
  rw [plusP_complete hoall ho (tw_nil_of_head (by decide))]
  simp only []
  rw [show ('/' :: (r ++ ("/pull/".data ++ (n ++ rest))) : List Char)
      = ['/'] ++ (r ++ ("/pull/".data ++ (n ++ rest))) from rfl, litP_append]
  simp only []
  rw [plusP_complete hrall hr
    (show (("/pull/".data ++ (n ++ rest)) : List Char).takeWhile isWordDash = [] from
      tw_nil_of_head (by decide))]
  simp only []
  rw [litP_append]
  simp only []
  unfold plusP
  rw [tw_append _ hnall, hrest, List.append_nil]
  rw [if_neg hn]
  rfl

/-- Completeness of the third revert pattern at position 0. -/
lemma p3_complete {v : Char} (hv : v = 'R' ∨ v = 'r') {ws n rest : List Char}
    (hws : ws ≠ []) (hwsall : ∀ c ∈ ws, isSpaceChar c = true)
    (hn : n ≠ []) (hnall : ∀ c ∈ n, isDigitChar c = true)
    (hrest : rest.takeWhile isDigitChar = []) :
    p3MatchAt (v :: ("everts".data ++ (ws ++ ('#' :: (n ++ rest))))) = some n := by
  unfold p3MatchAt
  rw [revVerb_cons hv]
  simp only []
  rw [plusP_complete hwsall hws (tw_nil_of_head (by decide))]
  simp only []
  rw [show ('#' :: (n ++ rest) : List Char) = ['#'] ++ (n ++ rest) from rfl, litP_append]
  simp only []
  unfold plusP
  rw [tw_append _ hnall, hrest, List.append_nil]
  rw [if_neg hn]
  rfl

/-! ### Helper lemmas about the PR chain -/

lemma spec_author_ne : ∀ {pr : PR}, chainAuthorsNonempty pr = true →
    specChainOriginalAuthor pr ≠ ""
  | .base d, h => by simpa [chainAuthorsNonempty, specChainOriginalAuthor] using h
  | .backport d o, h => by
    simp only [chainAuthorsNonempty, Bool.and_eq_true] at h
    simpa [specChainOriginalAuthor] using spec_author_ne h.2

lemma chainLength_pos : ∀ pr : PR, 1 ≤ chainLength pr
  | .base _ => le_refl 1
  | .backport _ o => by simp [chainLength]

lemma instr_fst (b : Bool) (d : PRData) (o : PR) :
    (setReviewersInstr b (.backport d o)).1 =
      (if (setReviewersInstr b o).1 = ∅ then ownReviewers d
       else (ownReviewers d ∪ (setReviewersInstr b o).1).erase o.author) := rfl

lemma instr_snd1 (b : Bool) (d : PRData) (o : PR) :
    (setReviewersInstr b (.backport d o)).2.1 = 1 + (setReviewersInstr b o).2.1 := rfl

lemma instr_snd2 (b : Bool) (d : PRData) (o : PR) :
    (setReviewersInstr b (.backport d o)).2.2 =
      (if b then 0 else 1) + (setReviewersInstr b o).2.2 := rfl

/-! ### Claim theorems -/

/-- C1 (counterexample): for the chain B → M → O with authors bianca,
    mallory, olivia, `get_author` of the pretty_release_notes PullRequest
    returns mallory — the author of the immediate `backport_of` — and not
    the chain-original author olivia that the claim demands. -/
theorem C1_counterexample :
    specChainOriginalAuthor exB1 = "olivia" ∧ getAuthor exB1 = "mallory" ∧
    getAuthor exB1 ≠ specChainOriginalAuthor exB1 := by
  refine ⟨rfl, rfl, ?_⟩
  decide

/-- C1 (amended): `get_author` returns the author of the immediate
    `backport_of` PR when it is resolved and non-null — one hop only, so
    for a chain B → M → O it returns M's author — and otherwise the PR's
    own author.  The legacy variant `src/models/pull_request.py` does
    follow the chain recursively: with nonempty authors along the chain it
    returns the chain-original author. -/
theorem C1_author_attribution :
    (∀ (d : PRData) (o : PR), getAuthor (.backport d o) = o.author)
    ∧ (∀ d : PRData, getAuthor (.base d) = d.author)
    ∧ (∀ pr : PR, chainAuthorsNonempty pr = true →
        getAuthorLegacy pr = specChainOriginalAuthor pr) := by
  refine ⟨fun d o => rfl, fun d => rfl, ?_⟩
  intro pr
  induction pr with
  | base d => intro _; rfl
  | backport d o ih =>
    intro h
    simp only [chainAuthorsNonempty, Bool.and_eq_true] at h
    have h2 := ih h.2
    have hne : specChainOriginalAuthor o ≠ "" := spec_author_ne h.2
    simp [getAuthorLegacy, specChainOriginalAuthor, h2, hne]

/-- C1 (witness): the amended theorem applied to the concrete chain:
    one hop from M reaches O's author, and the legacy walk from B reaches
    the chain root. -/
theorem C1_author_attribution_witness :
    getAuthor exM1 = PR.author exO1 ∧ getAuthorLegacy exB1 = specChainOriginalAuthor exB1 :=
  ⟨C1_author_attribution.1 dM1 exO1, C1_author_attribution.2.2 exB1 (by decide)⟩

/-- C2 (code bug): alice authored and merged the original `exO2` with no
    other reviews, so the original's recursively computed reviewer set is
    empty — falsy in Python — and `set_reviewers` of the backport `exB2`
    skips the union-and-discard step: alice, who reviewed the backport of
    her own PR, stays in the backport's reviewer set, contradicting the
    claim, the spec, and the method's own docstring ("An author who
    reviewed or merged their own PR or backport is not a reviewer").  The
    last conjunct shows the claim's described set differs from the code's
    result at this input. -/
theorem C2_code_bug :
    setReviewers exO2 = ∅ ∧
    "alice" ∈ dB2.fetchedReviewers ∧ PR.author exO2 = "alice" ∧
    setReviewers exB2 = {"alice", "carol"} ∧ "alice" ∈ setReviewers exB2 ∧
    setReviewers exB2 ≠ (ownReviewers dB2 ∪ setReviewers exO2).erase (PR.author exO2) := by
  refine ⟨by decide, by decide, rfl, by decide, by decide, by decide⟩

/-- C3 (counterexample): bob authored and merged the backport `exB3`, and
    bob also reviewed the original `exO3` (someone else's PR).  The
    original's reviewer set {bob, dave} is unioned in after bob was
    discarded, so bob — with `merged_by == author` — ends up in the final
    reviewer set, contradicting the claim. -/
theorem C3_counterexample :
    PR.mergedBy exB3 = some (PR.author exB3) ∧ PR.author exB3 ∈ setReviewers exB3 := by
  refine ⟨rfl, by decide⟩

/-- C3 (amended): for a Change with `merged_by == author`, the author is
    absent from the final reviewer set unless re-introduced by the
    original PR's recursively computed reviewer set: whenever the change
    is not a backport, or the author is not in the original's computed
    set, the final set never contains the author. -/
theorem C3_self_attribution (pr : PR) (hm : pr.mergedBy = some pr.author)
    (ho : ∀ o, pr.backportOf = some o → pr.author ∉ setReviewers o) :
    pr.author ∉ setReviewers pr := by
  cases pr with
  | base d =>
    simp only [setReviewers, ownReviewers]
    exact Finset.not_mem_erase _ _
  | backport d o =>
    have hno : d.author ∉ setReviewers o := ho o rfl
    simp only [setReviewers]
    by_cases he : setReviewers o = ∅
    · rw [if_pos he]
      simp only [ownReviewers]
      exact Finset.not_mem_erase _ _
    · rw [if_neg he]
      intro hmem
      rcases Finset.mem_union.mp (Finset.mem_of_mem_erase hmem) with h | h
      · revert h
        simp only [ownReviewers]
        exact Finset.not_mem_erase _ _
      · exact hno h

/-- C3 (witness): the amended theorem at a concrete non-backport PR whose
    author merged their own PR. -/
theorem C3_self_attribution_witness : "dan" ∉ setReviewers (PR.base dW3) :=
  C3_self_attribution (PR.base dW3) rfl (fun o h => by cases h)

/-- C6: `get_summary_key` is `backport_no` when the trailing backport
    marker is present, else the stringified id; hence a PR whose
    `backport_no` is the id of another PR shares that PR's cache key; and
    the key never depends on whether `backport_of` is resolved. -/
theorem C6_summary_key :
    (∀ d : PRData,
      (backportNo d.title = none → getSummaryKey d = toString d.id)
      ∧ (∀ n, backportNo d.title = some n → getSummaryKey d = n))
    ∧ (∀ dB dO : PRData, backportNo dB.title = some (toString dO.id) →
        backportNo dO.title = none → getSummaryKey dB = getSummaryKey dO)
    ∧ (∀ (d : PRData) (o : PR), PR.summaryKey (.backport d o) = PR.summaryKey (.base d)) := by
  refine ⟨fun d => ⟨?_, ?_⟩, ?_, fun d o => rfl⟩
  · intro h
    unfold getSummaryKey
    rw [h]
  · intro n h
    unfold getSummaryKey
    rw [h]
    simp only []
    rw [if_neg (backportNo_ne_empty h)]
  · intro dB dO h1 h2
    unfold getSummaryKey
    rw [h1, h2]
    simp only []
    rw [if_neg (backportNo_ne_empty h1)]

/-- C6 (witness): the PR titled `feat: x (backport #42)` and PR number 42
    itself produce the identical cache key "42". -/
theorem C6_summary_key_witness :
    getSummaryKey dKeyB = getSummaryKey dKeyO ∧ getSummaryKey dKeyO = "42" :=
  ⟨C6_summary_key.2.1 dKeyB dKeyO (by decide) (by decide), by decide⟩

/-- C7 (counterexample): on the second `set_reviewers` call (chain already
    resolved) the code still calls `github.get_pr_reviewers` once for the
    single PR of the chain — the claim says the second call performs no
    further `get_pr_reviewers` call. -/
theorem C7_counterexample :
    (setReviewersInstr true exP7).2.1 = 1 ∧ (1 : Nat) ≠ 0 := by
  refine ⟨by decide, by decide⟩

/-- C7 (amended): calling `set_reviewers` twice yields the same reviewer
    set both times, and the second call performs no `get_pr` call
    (backport resolution is memoized) — but `get_pr_reviewers` is fetched
    again on every call, the same number of times as on the first call
    (once per PR of the chain); the first call performs one `get_pr` per
    backport hop. -/
theorem C7_idempotence (pr : PR) (hwf : PRwf pr = true) :
    (setReviewersInstr true pr).1 = (setReviewersInstr false pr).1
    ∧ (setReviewersInstr true pr).2.2 = 0
    ∧ (setReviewersInstr true pr).2.1 = (setReviewersInstr false pr).2.1
    ∧ (setReviewersInstr true pr).2.1 = chainLength pr
    ∧ (setReviewersInstr false pr).2.2 = chainLength pr - 1 := by
  induction pr with
  | base d => exact ⟨rfl, rfl, rfl, rfl, rfl⟩
  | backport d o ih =>
    rw [PRwf, Bool.and_eq_true] at hwf
    obtain ⟨h1, h2, h3, h4, h5⟩ := ih hwf.2
    refine ⟨?_, ?_, ?_, ?_, ?_⟩
    · rw [instr_fst, instr_fst, h1]
    · rw [instr_snd2, h2]
      rfl
    · rw [instr_snd1, instr_snd1, h3]
    · rw [instr_snd1, h4, chainLength]
    · rw [instr_snd2, h5, chainLength]
      simp only [Bool.false_eq_true, if_false]
      have := chainLength_pos o
      omega

/-- C7 (witness): the amended theorem at the concrete two-PR chain. -/
theorem C7_idempotence_witness :
    (setReviewersInstr true exB2).1 = (setReviewersInstr false exB2).1
    ∧ (setReviewersInstr true exB2).2.2 = 0 := by
  have h := C7_idempotence exB2 (by decide)
  exact ⟨h.1, h.2.1⟩

/-! ### Cache round-trip lemmas -/

lemma find?_self_row (r : Repository) (k s : String) :
    rowMatches r k ⟨r.owner, r.name, k, s⟩ = true := by
  simp [rowMatches]

/-- C5 (counterexample): with an earlier row already stored for the same
    key, storing a second value and reading back returns the FIRST value,
    not the most recently stored one — for both backends. -/
theorem C5_counterexample :
    csvGet (csvStore (csvStore none rEx "42" "first") rEx "42" "second") rEx "42" = some "first"
    ∧ sqlGet (sqlStore (sqlStore [] rEx "42" "first") rEx "42" "second") rEx "42" = some "first"
    ∧ (some "first" : Option String) ≠ some "second" := by
  refine ⟨by decide, by decide, by decide⟩

/-- C5 (amended): for both backends, when the key has no currently
    matching row — and, for the CSV backend, the key does not collide with
    the header line that is read back as a data row — store followed by
    get returns the stored value, and delete followed by get returns
    absent; when a row for the key already exists, get after a further
    store still returns the OLD value (first-write-wins). -/
theorem C5_cache_roundtrip :
    (∀ (file : Option (List CSVRow)) (r : Repository) (k s : String),
       csvGet file r k = none → rowMatches r k headerRow = false →
       csvGet (csvStore file r k s) r k = some s)
    ∧ (∀ (rows : List CSVRow) (r : Repository) (k : String),
       rowMatches r k headerRow = false →
       csvGet (some (csvDelete rows r k)) r k = none)
    ∧ (∀ (rows : List CSVRow) (r : Repository) (k s : String),
       sqlGet rows r k = none → sqlGet (sqlStore rows r k s) r k = some s)
    ∧ (∀ (rows : List CSVRow) (r : Repository) (k : String),
       sqlGet (sqlDelete rows r k) r k = none)
    ∧ (∀ (file : Option (List CSVRow)) (r : Repository) (k s v : String),
       csvGet file r k = some v → csvGet (csvStore file r k s) r k = some v)
    ∧ (∀ (rows : List CSVRow) (r : Repository) (k s v : String),
       sqlGet rows r k = some v → sqlGet (sqlStore rows r k s) r k = some v) := by
  have hfilter : ∀ (rows : List CSVRow) (r : Repository) (k : String),
      (rows.filter (fun row => !(rowMatches r k row))).find? (rowMatches r k) = none := by
    intro rows r k
    rw [List.find?_eq_none]
    intro row hrow
    have h2 := (List.mem_filter.mp hrow).2
    simp only [Bool.not_eq_true'] at h2
    simp [h2]
  refine ⟨?_, ?_, ?_, ?_, ?_, ?_⟩
  · intro file r k s hget hhdr
    cases file with
    | none =>
      simp only [csvStore, csvGet]
      rw [List.find?_cons_of_neg _ (by simp [hhdr]),
        List.find?_cons_of_pos _ (find?_self_row r k s)]
      rfl
    | some rows =>
      simp only [csvGet] at hget
      simp only [csvStore, csvGet]
      rw [List.find?_append, Option.map_eq_none'.mp hget,
        List.find?_cons_of_pos _ (find?_self_row r k s)]
      rfl
  · intro rows r k hhdr
    simp only [csvGet, csvDelete]
    rw [List.find?_cons_of_neg _ (by simp [hhdr]), hfilter]
    rfl
  · intro rows r k s hget
    simp only [sqlGet] at hget
    simp only [sqlStore, sqlGet]
    rw [List.find?_append, Option.map_eq_none'.mp hget,
      List.find?_cons_of_pos _ (find?_self_row r k s)]
    rfl
  · intro rows r k
    simp only [sqlGet, sqlDelete]
    rw [hfilter]
    rfl
  · intro file r k s v hget
    cases file with
    | none => cases hget
    | some rows =>
      simp only [csvGet] at hget
      simp only [csvStore, csvGet]
      cases hf : rows.find? (rowMatches r k) with
      | none => rw [hf] at hget; cases hget
      | some row =>
        rw [hf] at hget
        rw [List.find?_append, hf]
        exact hget
  · intro rows r k s v hget
    simp only [sqlGet] at hget
    simp only [sqlStore, sqlGet]
    cases hf : rows.find? (rowMatches r k) with
    | none => rw [hf] at hget; cases hget
    | some row =>
      rw [hf] at hget
      rw [List.find?_append, hf]
      exact hget

/-- C5 (witness): fresh-key round trips and delete-then-get on both
    backends, at concrete inputs. -/
theorem C5_cache_roundtrip_witness :
    csvGet (csvStore none rEx "7" "foo") rEx "7" = some "foo"
    ∧ csvGet (some (csvDelete [⟨"frappe", "erpnext", "7", "foo"⟩] rEx "7")) rEx "7" = none
    ∧ sqlGet (sqlStore [] rEx "7" "foo") rEx "7" = some "foo"
    ∧ sqlGet (sqlDelete [⟨"frappe", "erpnext", "7", "foo"⟩] rEx "7") rEx "7" = none :=
  ⟨C5_cache_roundtrip.1 none rEx "7" "foo" (by decide) (by decide),
   C5_cache_roundtrip.2.1 _ rEx "7" (by decide),
   C5_cache_roundtrip.2.2.1 [] rEx "7" "foo" (by decide),
   C5_cache_roundtrip.2.2.2.1 _ rEx "7"⟩

/-! ### Revert-pair suppression: code vs spec characterization -/

lemma p1_capture_ne {l ds : List Char} (h : p1MatchAt l = some ds) : ds ≠ [] := by
  unfold p1MatchAt at h
  repeat' split at h
  any_goals cases h
  rename_i r6 _
  obtain ⟨pr, hp, hfst⟩ := Option.map_eq_some'.mp h
  obtain ⟨run, rest⟩ := pr
  obtain ⟨_, hrun, _⟩ := plusP_sound hp
  rw [← hfst]
  exact hrun

lemma p2_capture_ne {l ds : List Char} (h : p2MatchAt l = some ds) : ds ≠ [] := by
  unfold p2MatchAt at h
  repeat' split at h
  any_goals cases h
  rename_i r7 _
  obtain ⟨pr, hp, hfst⟩ := Option.map_eq_some'.mp h
  obtain ⟨run, rest⟩ := pr
  obtain ⟨_, hrun, _⟩ := plusP_sound hp
  rw [← hfst]
  exact hrun

lemma p3_capture_ne {l ds : List Char} (h : p3MatchAt l = some ds) : ds ≠ [] := by
  unfold p3MatchAt at h
  repeat' split at h
  any_goals cases h
  rename_i r3 _
  obtain ⟨pr, hp, hfst⟩ := Option.map_eq_some'.mp h
  obtain ⟨run, rest⟩ := pr
  obtain ⟨_, hrun, _⟩ := plusP_sound hp
  rw [← hfst]
  exact hrun

lemma revertedPrNumber_ne_empty {body n : String} (h : revertedPrNumber body = some n) :
    n ≠ "" := by
  unfold revertedPrNumber at h
  by_cases hb : body.data = []
  · rw [if_pos hb] at h
    cases h
  · rw [if_neg hb] at h
    have hcast : ∀ ds : List Char, ds ≠ [] → List.asString ds ≠ "" := by
      intro ds hne he
      apply hne
      have : (List.asString ds).data = ("" : String).data := by rw [he]
      simpa [asString_data] using this
    cases h1 : searchFirst p1MatchAt body.data with
    | some ds =>
      rw [h1] at h
      injection h with h'
      obtain ⟨k, hk⟩ := searchFirst_sound h1
      exact h' ▸ hcast ds (p1_capture_ne hk)
    | none =>
      rw [h1] at h
      cases h2 : searchFirst p2MatchAt body.data with
      | some ds =>
        rw [h2] at h
        injection h with h'
        obtain ⟨k, hk⟩ := searchFirst_sound h2
        exact h' ▸ hcast ds (p2_capture_ne hk)
      | none =>
        rw [h2] at h
        obtain ⟨ds, h3, h'⟩ := Option.map_eq_some'.mp h
        obtain ⟨k, hk⟩ := searchFirst_sound h3
        exact h' ▸ hcast ds (p3_capture_ne hk)

/-- The code's `_get_reverted_pr_numbers` computes exactly the spec's
    revert-target set. -/
lemma mem_revertedPrNumbers {lines : List ReleaseNotesLine} {nn : String} :
    nn ∈ revertedPrNumbers lines ↔ specIsRevertTarget lines nn := by
  unfold revertedPrNumbers specIsRevertTarget
  rw [List.mem_filterMap]
  constructor
  · rintro ⟨l, hl, hf⟩
    cases hc : l.change with
    | none => rw [hc] at hf; cases hf
    | some c =>
      rw [hc] at hf
      simp only [] at hf
      cases c with
      | commit cd => simp [Change.isRevertB] at hf
      | pr p =>
        by_cases hrev : Change.isRevertB (.pr p) = true
        · rw [if_pos hrev] at hf
          cases hno : Change.revertedNo (.pr p) with
          | none => rw [hno] at hf; cases hf
          | some m =>
            rw [hno] at hf
            simp only [] at hf
            by_cases hme : m = ""
            · rw [if_pos hme] at hf; cases hf
            · rw [if_neg hme] at hf
              by_cases hmem : m ∈ changeIds lines
              · rw [if_pos hmem] at hf
                injection hf with hf'
                subst hf'
                exact ⟨hmem, l, hl, p, hc, hrev, hno⟩
              · rw [if_neg hmem] at hf; cases hf
        · rw [if_neg hrev] at hf; cases hf
  · rintro ⟨hmem, l, hl, p, hc, hrev, hno⟩
    refine ⟨l, hl, ?_⟩
    rw [hc]
    simp only []
    rw [if_pos (show Change.isRevertB (.pr p) = true from hrev)]
    rw [show Change.revertedNo (.pr p) = some nn from hno]
    simp only []
    rw [if_neg (revertedPrNumber_ne_empty hno), if_pos hmem]

/-- C4 (counterexample): in a mixed document, a commit whose sha is the
    digit string "100", targeted by a PR body `Reverts frappe/frappe#100`
    in the same document, is by the claim's words "a change whose own id
    is such a target" and hence excluded — but `is_reverted_or_revert`
    returns early for changes without an `is_revert` attribute, so the
    commit is kept. -/
theorem C4_counterexample :
    isRevertedOrRevert docCY (.commit exCommitC) = false
    ∧ specExcluded docCY (.commit exCommitC) := by
  refine ⟨rfl, Or.inr ⟨by decide, lineY, by decide, exYpr, rfl, by decide, by decide⟩⟩

/-- C4 (amended): for pull-request changes the excluded set is exactly as
    the claim states: a PR present in the document is excluded iff it is a
    revert whose target id is present in the document, or its own id is
    the target of some revert in the document; commit changes are never
    excluded by the revert logic.  Concretely, with X, Y (reverting X) and
    an unrelated PR in one document, the flat serialization keeps only the
    unrelated line; with X absent, Y's line is kept. -/
theorem C4_revert_pair :
    (∀ (lines : List ReleaseNotesLine) (p : PR),
      (∃ l ∈ lines, l.change = some (.pr p)) →
      (isRevertedOrRevert lines (.pr p) = true ↔ specExcluded lines (.pr p)))
    ∧ (∀ (lines : List ReleaseNotesLine) (cd : CommitData),
        isRevertedOrRevert lines (.commit cd) = false)
    ∧ flatLines docXY [] [] = [lineStr lineOther]
    ∧ flatLines docY [] [] = [lineStr lineY] := by
  refine ⟨?_, fun lines cd => rfl, by decide, by decide⟩
  intro lines p hin
  unfold isRevertedOrRevert
  simp only [Bool.or_eq_true, Bool.and_eq_true, decide_eq_true_eq]
  constructor
  · rintro (⟨hrev, htgt⟩ | hid)
    · cases hno : revertedPrNumber p.data.body with
      | none => rw [hno] at htgt; cases htgt
      | some nn =>
        rw [hno] at htgt
        simp only [decide_eq_true_eq] at htgt
        left
        have := mem_revertedPrNumbers.mp htgt
        exact ⟨p, rfl, hrev, nn, hno, this.1⟩
    · right
      exact mem_revertedPrNumbers.mp hid
  · rintro (⟨q, hq, hrev, nn, hno, hmem⟩ | htgt)
    · left
      injection hq with hq'
      subst hq'
      refine ⟨hrev, ?_⟩
      rw [hno]
      simp only [decide_eq_true_eq]
      apply mem_revertedPrNumbers.mpr
      obtain ⟨l, hl, hc⟩ := hin
      exact ⟨hmem, l, hl, p, hc, hrev, hno⟩
    · right
      exact mem_revertedPrNumbers.mpr htgt

/-- C4 (witness): the equivalence applied to the revert PR Y inside the
    document that also contains its target X. -/
theorem C4_revert_pair_witness :
    isRevertedOrRevert docXY (.pr exYpr) = true ↔ specExcluded docXY (.pr exYpr) :=
  C4_revert_pair.1 docXY exYpr ⟨lineY, by decide, rfl⟩

/-- C10: a line with no resolved change (section header, blank line,
    new-contributor marker — all parsed with `change = None` and no
    summary sentence) is emitted verbatim by the flat serializer, while
    every line emitted by the grouped serializer is a section heading, a
    blank separator, or the rendering of a line that carries a change —
    grouped mode drops all pass-through text. -/
theorem C10_passthrough :
    ∀ (lines : List ReleaseNotesLine) (excT excL : List String) (cfg : GroupingConfig)
      (l : ReleaseNotesLine), l ∈ lines → l.change = none → l.sentence = none →
      (lineStr l = l.originalLine ∧ l.originalLine ∈ flatLines lines excT excL)
      ∧ (∀ s ∈ groupedLines lines excT excL cfg,
          s = "" ∨ (∃ h, s = "## " ++ h) ∨
          ∃ l2 ∈ lines, l2.change.isSome = true ∧ s = lineStr l2) := by
  intro lines excT excL cfg l hl hchg hsent
  have hstr : lineStr l = l.originalLine := by
    unfold lineStr
    rw [hsent]
  have hkeep : keepLine lines excT excL l = true := by
    unfold keepLine
    rw [hchg]
  have hmemkept : ∀ l2 ∈ keptChanged lines excT excL, l2 ∈ lines ∧ l2.change.isSome = true := by
    intro l2 h2
    have h3 := List.mem_filter.mp h2
    have h4 := h3.2
    simp only [Bool.and_eq_true] at h4
    exact ⟨h3.1, h4.1⟩
  refine ⟨⟨hstr, ?_⟩, ?_⟩
  · exact List.mem_map.mpr ⟨l, List.mem_filter.mpr ⟨hl, hkeep⟩, hstr⟩
  · intro s hs
    unfold groupedLines at hs
    simp only [] at hs
    rcases List.mem_append.mp hs with hs | hs
    · obtain ⟨k, _, hsk⟩ := List.mem_flatMap.mp hs
      unfold sectionFor at hsk
      rcases List.mem_cons.mp hsk with hs2 | hs2
      · exact Or.inr (Or.inl ⟨getHeading cfg (some k), hs2⟩)
      · rcases List.mem_append.mp hs2 with hs3 | hs3
        · obtain ⟨l2, hl2, hstr2⟩ := List.mem_map.mp hs3
          have hm := hmemkept l2 (List.mem_filter.mp hl2).1
          exact Or.inr (Or.inr ⟨l2, hm.1, hm.2, hstr2.symm⟩)
        · rcases List.mem_cons.mp hs3 with hs4 | hs4
          · exact Or.inl hs4
          · cases hs4
    · by_cases hother : otherLines lines excT excL = []
      · rw [if_pos hother] at hs
        cases hs
      · rw [if_neg hother] at hs
        rcases List.mem_cons.mp hs with hs2 | hs2
        · exact Or.inr (Or.inl ⟨cfg.otherHeading, hs2⟩)
        · rcases List.mem_append.mp hs2 with hs3 | hs3
          · obtain ⟨l2, hl2, hstr2⟩ := List.mem_map.mp hs3
            have hm := hmemkept l2 (List.mem_filter.mp hl2).1
            exact Or.inr (Or.inr ⟨l2, hm.1, hm.2, hstr2.symm⟩)
          · rcases List.mem_cons.mp hs3 with hs4 | hs4
            · exact Or.inl hs4
            · cases hs4

/-- C10 (witness): the theorem at a concrete document whose first line is
    a pass-through header. -/
theorem C10_passthrough_witness :
    lineStr lineHdr = lineHdr.originalLine
    ∧ lineHdr.originalLine ∈ flatLines docG [] [] :=
  (C10_passthrough docG [] [] cfgDefault lineHdr (by decide) rfl rfl).1

/-- C8: for a title `<type>(<scope>): <text> (backport #<n>)`,
    `conventional_type` is the type token (case-insensitively: the token
    lowercased) and `backport_no` is `n`; a leading all-letter token whose
    length is outside 2–8 yields no conventional type; leading whitespace
    is tolerated; and `backport_no` matches only a trailing
    `(backport #<n>)` marker — whatever it returns sits at the very end of
    the title, followed by nothing but whitespace, never mid-title. -/
theorem C8_title_grammar :
    (∀ ty scope text n : String,
      (∀ c ∈ ty.data, c.isAlpha = true) → 2 ≤ ty.data.length → ty.data.length ≤ 8 →
      scope.data ≠ [] → (∀ c ∈ scope.data, (c != ')') = true) →
      n.data ≠ [] → (∀ c ∈ n.data, isDigitChar c = true) →
      getConventionalType (ty ++ "(" ++ scope ++ "): " ++ text ++ " (backport #" ++ n ++ ")")
          = some (String.mk (ty.data.map Char.toLower))
        ∧ backportNo (ty ++ "(" ++ scope ++ "): " ++ text ++ " (backport #" ++ n ++ ")")
          = some n)
    ∧ (∀ w rest : String, (∀ c ∈ w.data, c.isAlpha = true) →
        (w.data.length < 2 ∨ 8 < w.data.length) →
        getConventionalType (w ++ ":" ++ rest) = none)
    ∧ (∀ ws t : String, (∀ c ∈ ws.data, isSpaceChar c = true) →
        getConventionalType (ws ++ t) = getConventionalType t)
    ∧ (∀ title n0 : String, backportNo title = some n0 →
        ∃ pre ws, title.data = pre ++ ("(backport #".data ++ (n0.data ++ ')' :: ws))
          ∧ n0.data ≠ [] ∧ (∀ c ∈ n0.data, isDigitChar c = true)
          ∧ (∀ c ∈ ws, isSpaceChar c = true)) := by
  refine ⟨?_, ?_, ?_, ?_⟩
  · intro ty scope text n hty h2 h8 hsne hsc hn hnall
    have hdata : (ty ++ "(" ++ scope ++ "): " ++ text ++ " (backport #" ++ n ++ ")").data
        = ty.data ++ ('(' :: (scope.data ++ ')' :: ':' ::
            (' ' :: (text.data ++ (" (backport #".data ++ (n.data ++ [')'])))))) := by
      simp only [str_data_append, List.append_assoc]
      rfl
    constructor
    · unfold getConventionalType
      rw [hdata]
      have htyne : ty.data ≠ [] := by
        intro h0
        rw [h0] at h2
        simp at h2
      obtain ⟨tc, tt, htc⟩ := List.exists_cons_of_ne_nil htyne
      rw [htc, List.cons_append,
        dropWhile_space_of_alpha (hty tc (htc ▸ List.mem_cons_self tc tt)),
        ← List.cons_append, ← htc]
      rw [convTypeAnchored_complete hty h2 h8 hsne hsc]
      rfl
    · have hdata2 : (ty ++ "(" ++ scope ++ "): " ++ text ++ " (backport #" ++ n ++ ")").data
          = (ty.data ++ ('(' :: (scope.data ++ ')' :: ':' :: (' ' :: (text.data ++ [' '])))))
            ++ ("(backport #".data ++ (n.data ++ ')' :: [])) := by
        simp only [str_data_append, List.append_assoc, List.cons_append]
        rfl
      rw [backportNo_complete hn hnall (fun c hc => absurd hc (List.not_mem_nil c)) hdata2]
      rfl
  · intro w rest hw hlen
    unfold getConventionalType
    have hdata : (w ++ ":" ++ rest).data = w.data ++ (':' :: rest.data) := by
      simp only [str_data_append, List.append_assoc]
      rfl
    rw [hdata]
    cases hwc : w.data with
    | nil =>
      rw [List.nil_append, dw_cons_false (by decide)]
      unfold convTypeAnchored
      rw [tw_nil_of_head (by decide), if_pos (Or.inl (by decide))]
      rfl
    | cons c cs =>
      rw [hwc] at hw hlen
      rw [List.cons_append,
        dropWhile_space_of_alpha (hw c (List.mem_cons_self c cs)),
        ← List.cons_append]
      rw [convTypeAnchored_out_of_bounds hw hlen]
      rfl
  · intro ws t hws
    exact getConventionalType_ws t hws
  · intro title n0 h
    exact backportNo_sound h

/-- C8 (witness): the grammar theorem at concrete titles, mirroring the
    repository's own test vectors. -/
theorem C8_title_grammar_witness :
    getConventionalType "feat(regional): Address Template (backport #46737)" = some "feat"
    ∧ backportNo "feat(regional): Address Template (backport #46737)" = some "46737"
    ∧ getConventionalType "verylongtype: message" = none
    ∧ getConventionalType " Fix: Product Bundle" = getConventionalType "Fix: Product Bundle" := by
  have h1 := C8_title_grammar.1 "feat" "regional" "Address Template" "46737"
    (by decide) (by decide) (by decide) (by decide) (by decide) (by decide) (by decide)
  have h2 := C8_title_grammar.2.1 "verylongtype" " message" (by decide) (by decide)
  have h3 := C8_title_grammar.2.2.1 " " "Fix: Product Bundle" (by decide)
  exact ⟨h1.1, h1.2, h2, h3⟩

/-! ### C9: the body-level revert patterns -/

lemma p1_family {vc : Char} (hvc : vc = 'R' ∨ vc = 'r') {wsl ol rl nl : List Char}
    (hws : wsl ≠ []) (hwsall : ∀ c ∈ wsl, isSpaceChar c = true)
    (ho : ol ≠ []) (hoall : ∀ c ∈ ol, isWordDash c = true)
    (hr : rl ≠ []) (hrall : ∀ c ∈ rl, isWordDash c = true)
    (hn : nl ≠ []) (hnall : ∀ c ∈ nl, isDigitChar c = true) :
    searchFirst p1MatchAt (vc :: ("everts".data ++ (wsl ++ (ol ++ '/' :: (rl ++ '#' :: nl)))))
      = some nl := by
  have h := p1_complete hvc hws hwsall ho hoall hr hrall hn hnall
    (show (([] : List Char)).takeWhile isDigitChar = [] from rfl)
  rw [List.append_nil] at h
  exact searchFirst_of_match h

/-- If a matcher returns the captured digits of a revert pattern, the
    whole body built from a digit-only tail admits no earlier match for
    the first pattern. -/
lemma p1_none_url {nl : List Char} (hnall : ∀ c ∈ nl, isDigitChar c = true) :
    searchFirst p1MatchAt ("Reverts https://github.com/frappe/frappe/pull/".data ++ nl)
      = none := by
  rw [searchFirst_append]
  · exact searchFirst_digits rfl (fun d ds hd => p1MatchAt_digit hd) hnall
  · intro k hk
    rw [show ("Reverts https://github.com/frappe/frappe/pull/".data).length = 46 from by decide] at hk
    interval_cases k <;> rfl

lemma p1_none_hash {nl : List Char} (hnall : ∀ c ∈ nl, isDigitChar c = true) :
    searchFirst p1MatchAt ("reverts #".data ++ nl) = none := by
  rw [searchFirst_append]
  · exact searchFirst_digits rfl (fun d ds hd => p1MatchAt_digit hd) hnall
  · intro k hk
    rw [show ("reverts #".data).length = 9 from by decide] at hk
    interval_cases k <;> rfl

lemma p2_none_hash {nl : List Char} (hnall : ∀ c ∈ nl, isDigitChar c = true) :
    searchFirst p2MatchAt ("reverts #".data ++ nl) = none := by
  rw [searchFirst_append]
  · exact searchFirst_digits rfl (fun d ds hd => p2MatchAt_digit hd) hnall
  · intro k hk
    rw [show ("reverts #".data).length = 9 from by decide] at hk
    interval_cases k <;> rfl

lemma verdict_from_p1 {body : String} {nl : List Char} (hne : body.data ≠ [])
    (h1 : searchFirst p1MatchAt body.data = some nl) :
    isRevert body = true ∧ revertedPrNumber body = some nl.asString := by
  unfold isRevert revertedPrNumber
  rw [if_neg hne, if_neg hne, h1]
  simp

lemma verdict_from_p2 {body : String} {nl : List Char} (hne : body.data ≠ [])
    (h1 : searchFirst p1MatchAt body.data = none)
    (h2 : searchFirst p2MatchAt body.data = some nl) :
    isRevert body = true ∧ revertedPrNumber body = some nl.asString := by
  unfold isRevert revertedPrNumber
  rw [if_neg hne, if_neg hne, h1, h2]
  simp

lemma verdict_from_p3 {body : String} {nl : List Char} (hne : body.data ≠ [])
    (h1 : searchFirst p1MatchAt body.data = none)
    (h2 : searchFirst p2MatchAt body.data = none)
    (h3 : searchFirst p3MatchAt body.data = some nl) :
    isRevert body = true ∧ revertedPrNumber body = some nl.asString := by
  unfold isRevert revertedPrNumber
  rw [if_neg hne, if_neg hne, h1, h2, h3]
  simp

/-- C9 (counterexample): the patterns are case-insensitive only in the
    FIRST letter of the verb (`[Rr]everts`); a fully uppercased `REVERTS`
    body matches none of them, while the claim's "case-insensitive on the
    leading verb" would make it a revert. -/
theorem C9_counterexample :
    isRevert "REVERTS frappe/frappe#123" = false
    ∧ revertedPrNumber "REVERTS frappe/frappe#123" = none := by
  refine ⟨by decide, by decide⟩

/-- C9 (amended): `is_revert` is true and `reverted_pr_number` returns the
    captured digits for bodies matching the three ordered patterns
    `Reverts <owner>/<repo>#<n>`, `Reverts <url>/pull/<n>`, `Reverts #<n>`
    — case-insensitive on the leading LETTER of the verb only
    (`Reverts`/`reverts`; all-caps `REVERTS` does not match); the first
    matching pattern in that order wins, even when a later-listed pattern
    matches earlier in the body; a body only mentioning
    `This reverts commit <sha>` yields false and None. -/
theorem C9_revert_patterns :
    (∀ v ws owner repo n : String,
      (v = "Reverts" ∨ v = "reverts") →
      ws.data ≠ [] → (∀ c ∈ ws.data, isSpaceChar c = true) →
      owner.data ≠ [] → (∀ c ∈ owner.data, isWordDash c = true) →
      repo.data ≠ [] → (∀ c ∈ repo.data, isWordDash c = true) →
      n.data ≠ [] → (∀ c ∈ n.data, isDigitChar c = true) →
      isRevert (v ++ ws ++ owner ++ "/" ++ repo ++ "#" ++ n) = true
      ∧ revertedPrNumber (v ++ ws ++ owner ++ "/" ++ repo ++ "#" ++ n) = some n)
    ∧ (∀ n : String, n.data ≠ [] → (∀ c ∈ n.data, isDigitChar c = true) →
        isRevert ("Reverts https://github.com/frappe/frappe/pull/" ++ n) = true
        ∧ revertedPrNumber ("Reverts https://github.com/frappe/frappe/pull/" ++ n) = some n)
    ∧ (∀ n : String, n.data ≠ [] → (∀ c ∈ n.data, isDigitChar c = true) →
        isRevert ("reverts #" ++ n) = true
        ∧ revertedPrNumber ("reverts #" ++ n) = some n)
    ∧ revertedPrNumber "Reverts #2, reverts a/b#1" = some "1"
    ∧ isRevert "This reverts commit abc123" = false
    ∧ revertedPrNumber "This reverts commit abc123" = none := by
  refine ⟨?_, ?_, ?_, by decide, by decide, by decide⟩
  · intro v ws owner repo n hv hws hwsall ho hoall hr hrall hn hnall
    rcases hv with hv | hv <;> subst hv
    · have hdata : ("Reverts" ++ ws ++ owner ++ "/" ++ repo ++ "#" ++ n).data
          = 'R' :: ("everts".data
              ++ (ws.data ++ (owner.data ++ '/' :: (repo.data ++ '#' :: n.data)))) := by
        simp only [str_data_append, List.append_assoc, List.cons_append]
        rfl
      have h1 : searchFirst p1MatchAt
          ("Reverts" ++ ws ++ owner ++ "/" ++ repo ++ "#" ++ n).data = some n.data := by
        rw [hdata]
        exact p1_family (Or.inl rfl) hws hwsall ho hoall hr hrall hn hnall
      have hne : ("Reverts" ++ ws ++ owner ++ "/" ++ repo ++ "#" ++ n).data ≠ [] := by
        rw [hdata]
        simp
      exact verdict_from_p1 hne h1
    · have hdata : ("reverts" ++ ws ++ owner ++ "/" ++ repo ++ "#" ++ n).data
          = 'r' :: ("everts".data
              ++ (ws.data ++ (owner.data ++ '/' :: (repo.data ++ '#' :: n.data)))) := by
        simp only [str_data_append, List.append_assoc, List.cons_append]
        rfl
      have h1 : searchFirst p1MatchAt
          ("reverts" ++ ws ++ owner ++ "/" ++ repo ++ "#" ++ n).data = some n.data := by
        rw [hdata]
        exact p1_family (Or.inr rfl) hws hwsall ho hoall hr hrall hn hnall
      have hne : ("reverts" ++ ws ++ owner ++ "/" ++ repo ++ "#" ++ n).data ≠ [] := by
        rw [hdata]
        simp
      exact verdict_from_p1 hne h1
  · intro n hn hnall
    have hdata : ("Reverts https://github.com/frappe/frappe/pull/" ++ n).data
        = "Reverts https://github.com/frappe/frappe/pull/".data ++ n.data := rfl
    have hne : ("Reverts https://github.com/frappe/frappe/pull/" ++ n).data ≠ [] := by
      rw [hdata]
      intro h0
      rw [List.append_eq_nil] at h0
      exact absurd h0.1 (by decide)
    have h1 : searchFirst p1MatchAt
        ("Reverts https://github.com/frappe/frappe/pull/" ++ n).data = none := by
      rw [hdata]
      exact p1_none_url hnall
    have hc := p2_complete (Or.inl (rfl : ('R' : Char) = 'R'))
      (show ([' '] : List Char) ≠ [] from by decide)
      (show ∀ c ∈ ([' '] : List Char), isSpaceChar c = true from by decide)
      (show ("frappe".data : List Char) ≠ [] from by decide)
      (show ∀ c ∈ "frappe".data, isWordDash c = true from by decide)
      (show ("frappe".data : List Char) ≠ [] from by decide)
      (show ∀ c ∈ "frappe".data, isWordDash c = true from by decide)
      hn hnall (show (([] : List Char)).takeWhile isDigitChar = [] from rfl)
    rw [List.append_nil] at hc
    have h2 : searchFirst p2MatchAt
        ("Reverts https://github.com/frappe/frappe/pull/" ++ n).data = some n.data :=
      searchFirst_of_match hc
    exact verdict_from_p2 hne h1 h2
  · intro n hn hnall
    have hdata : ("reverts #" ++ n).data = "reverts #".data ++ n.data := rfl
    have hne : ("reverts #" ++ n).data ≠ [] := by
      rw [hdata]
      intro h0
      rw [List.append_eq_nil] at h0
      exact absurd h0.1 (by decide)
    have h1 : searchFirst p1MatchAt ("reverts #" ++ n).data = none := by
      rw [hdata]
      exact p1_none_hash hnall
    have h2 : searchFirst p2MatchAt ("reverts #" ++ n).data = none := by
      rw [hdata]
      exact p2_none_hash hnall
    have hc := p3_complete (Or.inr (rfl : ('r' : Char) = 'r'))
      (show ([' '] : List Char) ≠ [] from by decide)
      (show ∀ c ∈ ([' '] : List Char), isSpaceChar c = true from by decide)
      hn hnall (show (([] : List Char)).takeWhile isDigitChar = [] from rfl)
    rw [List.append_nil] at hc
    have h3 : searchFirst p3MatchAt ("reverts #" ++ n).data = some n.data :=
      searchFirst_of_match hc
    exact verdict_from_p3 hne h1 h2 h3

/-- C9 (witness): the amended theorem at the repository's own test
    vectors. -/
theorem C9_revert_patterns_witness :
    (isRevert "Reverts frappe/frappe#12345" = true
      ∧ revertedPrNumber "Reverts frappe/frappe#12345" = some "12345")
    ∧ (isRevert "Reverts https://github.com/frappe/frappe/pull/12345" = true
      ∧ revertedPrNumber "Reverts https://github.com/frappe/frappe/pull/12345" = some "12345")
    ∧ (isRevert "reverts #12345" = true
      ∧ revertedPrNumber "reverts #12345" = some "12345") :=
  ⟨C9_revert_patterns.1 "Reverts" " " "frappe" "frappe" "12345" (Or.inl rfl)
      (by decide) (by decide) (by decide) (by decide) (by decide) (by decide)
      (by decide) (by decide),
   C9_revert_patterns.2.1 "12345" (by decide) (by decide),
   C9_revert_patterns.2.2.1 "12345" (by decide) (by decide)⟩

end PRN
